import Mathlib

/-!
Verification of the rejection-sampling accumulation core of
`projects/data/data/timeslide_waveforms/timeslide_waveforms.py` (`main`).

The loop (source lines 154-224) repeatedly draws `n_samples` (the current
remaining deficit) candidate parameter sets from the prior, computes an SNR per
candidate, appends the below-threshold candidates to a growable rejected set,
writes the accepted ones into a preallocated output array at rows
`[idx, idx + num_accepted)`, and decrements the deficit, until it is zero.

We embed the loop shallowly:
  * a candidate row (a parameter set together with its computed SNR) is a
    `Sample`; the SNR is modelled as an integer, all other per-row fields are
    collapsed into an opaque `id` tag — the loop never inspects anything but
    the SNR, and moves whole rows, so this is faithful;
  * the stochastic pipeline prior.sample / waveform generation / projection /
    `compute_network_snr` is an oracle `Nat → Nat → List Sample` giving, for
    each iteration index, the batch produced from a request of a given size
    (the external contract of `prior.sample(k)` is that it returns `k` draws);
  * the preallocated numpy arrays (one row per injection time) become a list
    of cells; a cell carries a ghost write counter (incremented by each slice
    assignment that touches the row) and the row's value, so that
    "written exactly once" is directly expressible;
  * the `while` loop becomes fuel-indexed recursion: `run` returns `some`
    final state when the loop exits within the given fuel, `none` otherwise.

A second, field-keyed model near the end of the file covers the parts of the
code that manipulate the `parameters` dictionary per key: the single-sample
key-restriction workaround (lines 167-168) and the per-key slice writes
(lines 209-216), as well as the background-file selection (lines 132-137)
with its Python exception semantics.
-/

/-- One candidate row: its network SNR (as computed at line 186-190 of the
source) plus an opaque tag standing for all its other fields (masses, sky
location, projected per-detector strain, ...).  The loop treats those fields
as an indivisible row, so a single tag models them faithfully. -/
structure Sample where
  id : Nat
  snr : Int
deriving Repr, DecidableEq

/-- A cell of the preallocated output array: a ghost counter of how many slice
assignments have written this row, and the row contents (`none` = still the
zero fill from `np.zeros`). -/
def Cell : Type := Nat × Option Sample
deriving instance Repr, DecidableEq for Cell

/-- The zero-filled cell the arrays start with (lines 121-128). -/
def cellDefault : Cell := (0, none)

/-- State of the accumulation loop (lines 154-224).  `remaining` is the
mutable `n_samples` variable inside the loop, `idx` the write offset,
`numInjections` the total-drawn counter, `accepted` the preallocated output
storage, `rejected` the growable `rejected_params` set, and `iter` counts
iterations (used only to index the oracle). -/
structure LoopState where
  remaining : Nat
  idx : Nat
  numInjections : Nat
  accepted : List Cell
  rejected : List Sample
  iter : Nat
deriving Repr, DecidableEq

/-- `mask = snrs >= snr_threshold` (line 192) applied as a filter: the
sub-batch of candidates meeting the threshold, in draw order. -/
def accepts (t : Int) (batch : List Sample) : List Sample :=
  batch.filter fun c => t ≤ c.snr

/-- `~mask` applied as a filter (line 198): the candidates below threshold,
in draw order. -/
def rejects (t : Int) (batch : List Sample) : List Sample :=
  batch.filter fun c => c.snr < t

/-- The slice assignment `parameters[key][start:start+len(vals)] = vals`
(lines 208-216), on the whole-row view of the storage; each touched cell's
ghost write counter is incremented. -/
def writeSlice : List Cell → Nat → List Sample → List Cell
  | [], _, _ => []
  | cell :: rest, 0, [] => cell :: rest
  | cell :: rest, 0, v :: vs => (cell.1 + 1, some v) :: writeSlice rest 0 vs
  | cell :: rest, Nat.succ s, vs => cell :: writeSlice rest s vs

/-- One iteration of the `while n_samples > 0` body (lines 156-224).  The
batch is drawn with size equal to the current deficit (`prior.sample(n_samples)`,
line 157); its SNRs partition it by the threshold; rejects are appended
(lines 196-200) and the total counter advances (line 191) before the
`if num_accepted == 0: continue` branch (lines 203-205); otherwise the
accepted rows are written at `[idx, idx + num_accepted)` and the offset and
deficit are updated (lines 207-224). -/
def step (t : Int) (oracle : Nat → Nat → List Sample) (s : LoopState) : LoopState :=
  let batch := oracle s.iter s.remaining
  let acc := accepts t batch
  let rej := rejects t batch
  if acc.length = 0 then
    { s with
      numInjections := s.numInjections + batch.length
      rejected := s.rejected ++ rej
      iter := s.iter + 1 }
  else
    { remaining := s.remaining - acc.length
      idx := s.idx + acc.length
      numInjections := s.numInjections + batch.length
      accepted := writeSlice s.accepted s.idx acc
      rejected := s.rejected ++ rej
      iter := s.iter + 1 }

/-- The loop as fuel-indexed recursion: `some s` when `while n_samples > 0`
exits within `fuel` iterations, `none` when the loop is still running. -/
def run (t : Int) (oracle : Nat → Nat → List Sample) : Nat → LoopState → Option LoopState
  | 0, s => if s.remaining = 0 then some s else none
  | Nat.succ f, s => if s.remaining = 0 then some s else run t oracle f (step t oracle s)

/-- All states the loop passes through (including the state at the final
test of the guard), up to the given fuel. -/
def runTrace (t : Int) (oracle : Nat → Nat → List Sample) : Nat → LoopState → List LoopState
  | 0, s => [s]
  | Nat.succ f, s =>
    if s.remaining = 0 then [s] else s :: runTrace t oracle f (step t oracle s)

/-- The state entering the loop (lines 118-155): `n_samples` rows to fill,
offset and counters zero, storage zero-filled, rejected set empty. -/
def initState (nSamples : Nat) : LoopState :=
  { remaining := nSamples
    idx := 0
    numInjections := 0
    accepted := List.replicate nSamples cellDefault
    rejected := []
    iter := 0 }

/-- The loop invariant tying the pieces together: the offset and the deficit
always sum to the schedule length, the storage keeps its preallocated length,
the total-drawn counter equals filled rows plus rejected rows, every rejected
row is below threshold, and a cell has been written exactly once with an
above-threshold row iff its index is below the offset (otherwise it is
untouched zero fill). -/
def LoopInv (t : Int) (n : Nat) (s : LoopState) : Prop :=
  s.idx + s.remaining = n ∧
  s.accepted.length = n ∧
  s.numInjections = s.idx + s.rejected.length ∧
  (∀ c ∈ s.rejected, c.snr < t) ∧
  (∀ j, j < n →
    if j < s.idx then
      (s.accepted.getD j cellDefault).1 = 1 ∧
      ∃ v, (s.accepted.getD j cellDefault).2 = some v ∧ t ≤ v.snr
    else s.accepted.getD j cellDefault = cellDefault)

/-- A sample used only as a `getD` fallback; never read in bounds. -/
def sampleDefault : Sample := ⟨0, 0⟩

theorem writeSlice_nil_vals (st : List Cell) (start : Nat) :
    writeSlice st start [] = st := by
  induction st generalizing start with
  | nil => rfl
  | cons cell rest ih =>
    cases start with
    | zero => rfl
    | succ s => simpa [writeSlice] using ih s

theorem length_writeSlice (st : List Cell) (start : Nat) (vals : List Sample) :
    (writeSlice st start vals).length = st.length := by
  induction st generalizing start vals with
  | nil => rfl
  | cons cell rest ih =>
    cases start with
    | zero =>
      cases vals with
      | nil => rfl
      | cons v vs => simpa [writeSlice] using ih 0 vs
    | succ s => simpa [writeSlice] using ih s vals

theorem getD_writeSlice_lt (st : List Cell) (start : Nat) (vals : List Sample)
    (j : Nat) (h : j < start) :
    (writeSlice st start vals).getD j cellDefault = st.getD j cellDefault := by
  induction st generalizing start vals j with
  | nil => rfl
  | cons cell rest ih =>
    cases start with
    | zero => omega
    | succ s =>
      cases j with
      | zero => simp [writeSlice]
      | succ m =>
        simp only [writeSlice, List.getD_cons_succ]
        exact ih s vals m (by omega)

theorem getD_writeSlice_ge (st : List Cell) (start : Nat) (vals : List Sample)
    (j : Nat) (h : start + vals.length ≤ j) :
    (writeSlice st start vals).getD j cellDefault = st.getD j cellDefault := by
  induction st generalizing start vals j with
  | nil => rfl
  | cons cell rest ih =>
    cases start with
    | zero =>
      cases vals with
      | nil => rw [writeSlice_nil_vals]
      | cons v vs =>
        cases j with
        | zero => simp only [List.length_cons] at h; omega
        | succ m =>
          simp only [writeSlice, List.getD_cons_succ]
          exact ih 0 vs m (by simp only [List.length_cons] at h; omega)
    | succ s =>
      cases j with
      | zero => simp [writeSlice]
      | succ m =>
        simp only [writeSlice, List.getD_cons_succ]
        exact ih s vals m (by omega)

theorem getD_writeSlice_mem (st : List Cell) (start : Nat) (vals : List Sample)
    (j : Nat) (h1 : start ≤ j) (h2 : j - start < vals.length) (h3 : j < st.length) :
    (writeSlice st start vals).getD j cellDefault =
      ((st.getD j cellDefault).1 + 1, some (vals.getD (j - start) sampleDefault)) := by
  induction st generalizing start vals j with
  | nil => simp at h3
  | cons cell rest ih =>
    cases start with
    | zero =>
      cases vals with
      | nil => simp at h2
      | cons v vs =>
        cases j with
        | zero => simp [writeSlice]
        | succ m =>
          simp only [writeSlice, List.getD_cons_succ]
          have := ih 0 vs m (Nat.zero_le m) (by simp at h2 ⊢; omega) (by simp at h3; omega)
          simpa using this
    | succ s =>
      cases j with
      | zero => omega
      | succ m =>
        simp only [writeSlice, List.getD_cons_succ]
        have := ih s vals m (by omega) (by omega) (by simp at h3; omega)
        have heq : m - s = Nat.succ m - Nat.succ s := by omega
        rw [this, heq]

theorem accepts_length_add_rejects_length (t : Int) (b : List Sample) :
    (accepts t b).length + (rejects t b).length = b.length := by
  induction b with
  | nil => rfl
  | cons c cs ih =>
    rcases le_or_lt t c.snr with h | h
    · have h2 : ¬c.snr < t := not_lt.mpr h
      simp only [accepts, rejects, List.filter_cons] at ih ⊢
      simp [h, h2] at ih ⊢
      omega
    · have h2 : ¬t ≤ c.snr := not_le.mpr h
      simp only [accepts, rejects, List.filter_cons] at ih ⊢
      simp [h, h2] at ih ⊢
      omega

theorem accepts_length_le (t : Int) (b : List Sample) :
    (accepts t b).length ≤ b.length :=
  List.length_filter_le _ b

theorem snr_lt_of_mem_rejects (t : Int) (b : List Sample) (c : Sample)
    (h : c ∈ rejects t b) : c.snr < t := by
  have := List.of_mem_filter h
  simpa using this

theorem le_snr_of_mem_accepts (t : Int) (b : List Sample) (c : Sample)
    (h : c ∈ accepts t b) : t ≤ c.snr := by
  have := List.of_mem_filter h
  simpa using this

theorem accepts_sublist (t : Int) (b : List Sample) :
    List.Sublist (accepts t b) b :=
  List.filter_sublist b

/-- The `continue` branch of the loop body (lines 203-205) is the general
update with an empty write: `step` in branch-free form. -/
theorem step_eq (t : Int) (oracle : Nat → Nat → List Sample) (s : LoopState) :
    step t oracle s =
      { remaining := s.remaining - (accepts t (oracle s.iter s.remaining)).length
        idx := s.idx + (accepts t (oracle s.iter s.remaining)).length
        numInjections := s.numInjections + (oracle s.iter s.remaining).length
        accepted := writeSlice s.accepted s.idx (accepts t (oracle s.iter s.remaining))
        rejected := s.rejected ++ rejects t (oracle s.iter s.remaining)
        iter := s.iter + 1 } := by
  unfold step
  by_cases h : (accepts t (oracle s.iter s.remaining)).length = 0
  · have hnil : accepts t (oracle s.iter s.remaining) = [] := List.length_eq_zero.mp h
    simp [h, hnil, writeSlice_nil_vals]
  · simp [h]

theorem loopInv_init (t : Int) (n : Nat) : LoopInv t n (initState n) := by
  refine ⟨by simp [initState], by simp [initState], by simp [initState],
    by simp [initState], ?_⟩
  intro j hj
  simp only [initState]
  rw [if_neg (Nat.not_lt_zero j)]
  rw [List.getD_eq_getElem _ _ (by simpa using hj)]
  simp

theorem loopInv_step (t : Int) (oracle : Nat → Nat → List Sample) (n : Nat)
    (s : LoopState) (hor : (oracle s.iter s.remaining).length = s.remaining)
    (hinv : LoopInv t n s) : LoopInv t n (step t oracle s) := by
  obtain ⟨h1, h2, h3, h4, h5⟩ := hinv
  rw [step_eq]
  set batch := oracle s.iter s.remaining with hb
  set a := accepts t batch with ha
  set r := rejects t batch with hr
  have hk : a.length ≤ s.remaining := hor ▸ accepts_length_le t batch
  have hpart : a.length + r.length = batch.length :=
    accepts_length_add_rejects_length t batch
  unfold LoopInv
  dsimp only
  refine ⟨by omega, by rw [length_writeSlice]; exact h2, ?_, ?_, ?_⟩
  · rw [List.length_append]
    omega
  · intro c hc
    rcases List.mem_append.mp hc with hmem | hmem
    · exact h4 c hmem
    · exact snr_lt_of_mem_rejects t batch c hmem
  · intro j hj
    rcases Nat.lt_or_ge j s.idx with hlt | hge
    · have heq := getD_writeSlice_lt s.accepted s.idx a j hlt
      have hold := h5 j hj
      rw [if_pos hlt] at hold
      rw [if_pos (by omega), heq]
      exact hold
    · rcases Nat.lt_or_ge j (s.idx + a.length) with hin | hout
      · have hjlen : j < s.accepted.length := by omega
        have heq := getD_writeSlice_mem s.accepted s.idx a j hge (by omega) hjlen
        have hold := h5 j hj
        rw [if_neg (by omega)] at hold
        have hmem : a.getD (j - s.idx) sampleDefault ∈ a := by
          rw [List.getD_eq_getElem _ _ (by omega)]
          exact List.getElem_mem _
        rw [if_pos (by omega)]
        refine ⟨?_, ?_⟩
        · rw [heq, hold]
          rfl
        · rw [heq]
          exact ⟨_, rfl, le_snr_of_mem_accepts t batch _ hmem⟩
      · have heq := getD_writeSlice_ge s.accepted s.idx a j (by omega)
        have hold := h5 j hj
        rw [if_neg (by omega)] at hold
        rw [if_neg (by omega), heq]
        exact hold

theorem run_some_remaining (t : Int) (oracle : Nat → Nat → List Sample)
    (fuel : Nat) (s s' : LoopState) (h : run t oracle fuel s = some s') :
    s'.remaining = 0 := by
  induction fuel generalizing s with
  | zero =>
    simp only [run] at h
    split at h
    · cases h; assumption
    · cases h
  | succ f ih =>
    simp only [run] at h
    split at h
    · cases h; assumption
    · exact ih _ h

theorem loopInv_run (t : Int) (oracle : Nat → Nat → List Sample)
    (hor : ∀ i k, (oracle i k).length = k) (n fuel : Nat) (s s' : LoopState)
    (hinv : LoopInv t n s) (h : run t oracle fuel s = some s') :
    LoopInv t n s' := by
  induction fuel generalizing s with
  | zero =>
    simp only [run] at h
    split at h
    · cases h; exact hinv
    · cases h
  | succ f ih =>
    simp only [run] at h
    split at h
    · cases h; exact hinv
    · exact ih _ (loopInv_step t oracle n s (hor _ _) hinv) h

theorem loopInv_runTrace (t : Int) (oracle : Nat → Nat → List Sample)
    (hor : ∀ i k, (oracle i k).length = k) (n fuel : Nat) (s : LoopState)
    (hinv : LoopInv t n s) :
    ∀ s' ∈ runTrace t oracle fuel s, LoopInv t n s' := by
  induction fuel generalizing s with
  | zero =>
    intro s' h
    simp only [runTrace, List.mem_singleton] at h
    subst h
    exact hinv
  | succ f ih =>
    intro s' h
    simp only [runTrace] at h
    split at h
    · rw [List.mem_singleton] at h
      subst h
      exact hinv
    · rcases List.mem_cons.mp h with h | h
      · subst h
        exact hinv
      · exact ih _ (loopInv_step t oracle n s (hor _ _) hinv) s' h

/-- An oracle for concrete runs: candidate `m` of any batch gets SNR 2 when
`m` is even and SNR 0 otherwise. -/
def oracleMixed : Nat → Nat → List Sample :=
  fun _ k => (List.range k).map fun m => ⟨m, if m % 2 = 0 then 2 else 0⟩

theorem oracleMixed_length (i k : Nat) : (oracleMixed i k).length = k := by
  simp [oracleMixed]

/-- C1: whenever the accumulation loop terminates, the preallocated Accepted
storage has exactly `n_samples` rows, the write offset equals `n_samples`,
each row's ghost write counter is exactly 1 (written exactly once, never
overwritten), and every row holds a value (none left unwritten); the
`n_samples = 0` case terminates immediately and satisfies this vacuously. -/
theorem accepted_rows_exactly_once (t : Int) (oracle : Nat → Nat → List Sample)
    (n fuel : Nat) (s' : LoopState)
    (hor : ∀ i k, (oracle i k).length = k)
    (hrun : run t oracle fuel (initState n) = some s') :
    s'.idx = n ∧ s'.remaining = 0 ∧ s'.accepted.length = n ∧
      ∀ j, j < n → (s'.accepted.getD j cellDefault).1 = 1 ∧
        (s'.accepted.getD j cellDefault).2.isSome = true := by
  have hinv := loopInv_run t oracle hor n fuel _ s' (loopInv_init t n) hrun
  have hrem := run_some_remaining t oracle fuel _ s' hrun
  obtain ⟨h1, h2, _, _, h5⟩ := hinv
  refine ⟨by omega, hrem, h2, ?_⟩
  intro j hj
  have hcell := h5 j hj
  rw [if_pos (by omega)] at hcell
  obtain ⟨hc, v, hv, _⟩ := hcell
  refine ⟨hc, ?_⟩
  rw [hv]
  rfl

theorem accepted_rows_exactly_once_witness :
    (step 1 oracleMixed (step 1 oracleMixed (initState 2))).idx = 2 ∧
      (step 1 oracleMixed (step 1 oracleMixed (initState 2))).remaining = 0 ∧
      (step 1 oracleMixed (step 1 oracleMixed (initState 2))).accepted.length = 2 ∧
      ∀ j, j < 2 →
        ((step 1 oracleMixed (step 1 oracleMixed (initState 2))).accepted.getD j
            cellDefault).1 = 1 ∧
        ((step 1 oracleMixed (step 1 oracleMixed (initState 2))).accepted.getD j
            cellDefault).2.isSome = true :=
  accepted_rows_exactly_once 1 oracleMixed 2 2
    (step 1 oracleMixed (step 1 oracleMixed (initState 2)))
    oracleMixed_length (by decide)

/-- C2: the threshold predicate partitions every batch totally and disjointly
(accepted and rejected lengths always sum to the batch length); at
termination the total-drawn counter equals the accepted row count
(`n_samples`) plus the rejected row count, every rejected row has SNR below
the threshold, and every filled Accepted row has SNR at or above it. -/
theorem partition_exhaustive (t : Int) (oracle : Nat → Nat → List Sample)
    (n fuel : Nat) (s' : LoopState)
    (hor : ∀ i k, (oracle i k).length = k)
    (hrun : run t oracle fuel (initState n) = some s') :
    (∀ b : List Sample, (accepts t b).length + (rejects t b).length = b.length) ∧
      s'.numInjections = n + s'.rejected.length ∧
      (∀ c ∈ s'.rejected, c.snr < t) ∧
      ∀ j, j < n → ∃ v, (s'.accepted.getD j cellDefault).2 = some v ∧ t ≤ v.snr := by
  have hinv := loopInv_run t oracle hor n fuel _ s' (loopInv_init t n) hrun
  have hrem := run_some_remaining t oracle fuel _ s' hrun
  obtain ⟨h1, _, h3, h4, h5⟩ := hinv
  refine ⟨fun b => accepts_length_add_rejects_length t b, by omega, h4, ?_⟩
  intro j hj
  have hcell := h5 j hj
  rw [if_pos (by omega)] at hcell
  exact hcell.2

theorem partition_exhaustive_witness :
    (∀ b : List Sample, (accepts 1 b).length + (rejects 1 b).length = b.length) ∧
      (step 1 oracleMixed (step 1 oracleMixed (initState 2))).numInjections =
        2 + (step 1 oracleMixed (step 1 oracleMixed (initState 2))).rejected.length ∧
      (∀ c ∈ (step 1 oracleMixed (step 1 oracleMixed (initState 2))).rejected,
        c.snr < 1) ∧
      ∀ j, j < 2 →
        ∃ v, ((step 1 oracleMixed (step 1 oracleMixed (initState 2))).accepted.getD j
            cellDefault).2 = some v ∧ 1 ≤ v.snr :=
  partition_exhaustive 1 oracleMixed 2 2
    (step 1 oracleMixed (step 1 oracleMixed (initState 2)))
    oracleMixed_length (by decide)

/-- C3: at every state the loop passes through, the batch requested from the
prior has size exactly the remaining deficit `n_samples - offset` (never
more), and the write offset never exceeds the preallocated bound
`n_samples`. -/
theorem batch_size_eq_remaining (t : Int) (oracle : Nat → Nat → List Sample)
    (n fuel : Nat) (hor : ∀ i k, (oracle i k).length = k) :
    ∀ s' ∈ runTrace t oracle fuel (initState n),
      s'.idx ≤ n ∧ (oracle s'.iter s'.remaining).length = n - s'.idx := by
  intro s' hmem
  have hinv := loopInv_runTrace t oracle hor n fuel _ (loopInv_init t n) s' hmem
  obtain ⟨h1, _, _, _, _⟩ := hinv
  constructor
  · omega
  · rw [hor]
    omega

theorem batch_size_eq_remaining_witness :
    (initState 2).idx ≤ 2 ∧
      (oracleMixed (initState 2).iter (initState 2).remaining).length =
        2 - (initState 2).idx :=
  batch_size_eq_remaining 1 oracleMixed 2 2 oracleMixed_length (initState 2)
    (by decide)

/-- When no candidate of the batch meets the threshold, the iteration takes
the `continue` branch (lines 203-205): the whole batch (with its SNRs) goes
to the rejected set, the total counter advances by the batch size, and the
offset, the Accepted storage and the deficit are untouched. -/
theorem step_all_rejected (t : Int) (oracle : Nat → Nat → List Sample)
    (s : LoopState) (hall : ∀ c ∈ oracle s.iter s.remaining, c.snr < t) :
    step t oracle s =
      { s with
        numInjections := s.numInjections + (oracle s.iter s.remaining).length
        rejected := s.rejected ++ oracle s.iter s.remaining
        iter := s.iter + 1 } := by
  have hacc : accepts t (oracle s.iter s.remaining) = [] := by
    rw [accepts, List.filter_eq_nil_iff]
    intro c hc
    simpa using not_le.mpr (hall c hc)
  have hrej : rejects t (oracle s.iter s.remaining) = oracle s.iter s.remaining := by
    rw [rejects, List.filter_eq_self]
    intro c hc
    simpa using hall c hc
  unfold step
  simp [hacc, hrej]

/-- C5: an iteration on which zero candidates meet the SNR threshold still
appends all of that iteration's candidates to Rejected and counts them in
the total-drawn counter, while leaving the Accepted storage, the write
offset and the remaining deficit exactly unchanged. -/
theorem zero_acceptance_iteration (t : Int) (oracle : Nat → Nat → List Sample)
    (s : LoopState) (hall : ∀ c ∈ oracle s.iter s.remaining, c.snr < t) :
    (step t oracle s).accepted = s.accepted ∧
      (step t oracle s).idx = s.idx ∧
      (step t oracle s).remaining = s.remaining ∧
      (step t oracle s).rejected = s.rejected ++ oracle s.iter s.remaining ∧
      (step t oracle s).numInjections =
        s.numInjections + (oracle s.iter s.remaining).length := by
  rw [step_all_rejected t oracle s hall]
  exact ⟨rfl, rfl, rfl, rfl, rfl⟩

/-- An all-rejecting oracle for concrete runs: every candidate has SNR 0. -/
def oracleAllFail : Nat → Nat → List Sample :=
  fun _ k => (List.range k).map fun m => ⟨m, 0⟩

theorem zero_acceptance_iteration_witness :
    (step 1 oracleAllFail (initState 2)).accepted = (initState 2).accepted ∧
      (step 1 oracleAllFail (initState 2)).idx = (initState 2).idx ∧
      (step 1 oracleAllFail (initState 2)).remaining = (initState 2).remaining ∧
      (step 1 oracleAllFail (initState 2)).rejected =
        (initState 2).rejected ++
          oracleAllFail (initState 2).iter (initState 2).remaining ∧
      (step 1 oracleAllFail (initState 2)).numInjections =
        (initState 2).numInjections +
          (oracleAllFail (initState 2).iter (initState 2).remaining).length :=
  zero_acceptance_iteration 1 oracleAllFail (initState 2) (by decide)

/-- C6: within one iteration the accepted sub-batch is a sublist of the drawn
batch (the boolean-mask partition keeps draw order), and the iteration writes
it contiguously into rows `[offset, offset + num_accepted)`: row
`offset + j` receives the `j`-th accepted candidate (the whole row — every
field, the projected strain and the SNR move together as one `Sample`). -/
theorem accepted_order_preserved (t : Int) (oracle : Nat → Nat → List Sample)
    (s : LoopState)
    (hlen : s.idx + (accepts t (oracle s.iter s.remaining)).length ≤
      s.accepted.length) :
    List.Sublist (accepts t (oracle s.iter s.remaining))
        (oracle s.iter s.remaining) ∧
      ∀ j, j < (accepts t (oracle s.iter s.remaining)).length →
        ((step t oracle s).accepted.getD (s.idx + j) cellDefault).2 =
          some ((accepts t (oracle s.iter s.remaining)).getD j sampleDefault) := by
  refine ⟨accepts_sublist t _, ?_⟩
  intro j hj
  rw [step_eq]
  dsimp only
  have heq := getD_writeSlice_mem s.accepted s.idx
    (accepts t (oracle s.iter s.remaining)) (s.idx + j) (by omega) (by omega)
    (by omega)
  rw [heq]
  have hsub : s.idx + j - s.idx = j := by omega
  rw [hsub]

theorem accepted_order_preserved_witness :
    List.Sublist (accepts 1 (oracleMixed (initState 4).iter (initState 4).remaining))
        (oracleMixed (initState 4).iter (initState 4).remaining) ∧
      ∀ j, j < (accepts 1 (oracleMixed (initState 4).iter (initState 4).remaining)).length →
        ((step 1 oracleMixed (initState 4)).accepted.getD ((initState 4).idx + j)
            cellDefault).2 =
          some ((accepts 1 (oracleMixed (initState 4).iter
              (initState 4).remaining)).getD j sampleDefault) :=
  accepted_order_preserved 1 oracleMixed (initState 4) (by decide)

/-- C7: with a positive target and an adversarial pipeline on which every
drawn candidate falls below the threshold, the loop never terminates: for
every fuel bound the `while` loop is still running, and every state it has
passed through still has a positive remaining deficit — there is no
iteration cap, timeout or backoff. -/
theorem all_rejected_no_termination (t : Int) (oracle : Nat → Nat → List Sample)
    (n : Nat) (hn : 0 < n) (hall : ∀ i k, ∀ c ∈ oracle i k, c.snr < t) :
    ∀ fuel, run t oracle fuel (initState n) = none ∧
      ∀ s' ∈ runTrace t oracle fuel (initState n), 0 < s'.remaining := by
  have haux : ∀ fuel s, 0 < s.remaining →
      run t oracle fuel s = none ∧
        ∀ s' ∈ runTrace t oracle fuel s, 0 < s'.remaining := by
    intro fuel
    induction fuel with
    | zero =>
      intro s hs
      constructor
      · simp only [run]
        rw [if_neg (by omega)]
      · intro s' h
        simp only [runTrace, List.mem_singleton] at h
        subst h
        exact hs
    | succ f ih =>
      intro s hs
      have hrem : (step t oracle s).remaining = s.remaining := by
        rw [step_all_rejected t oracle s (hall _ _)]
      constructor
      · simp only [run]
        rw [if_neg (by omega)]
        exact (ih _ (by omega)).1
      · intro s' h
        simp only [runTrace] at h
        rw [if_neg (by omega)] at h
        rcases List.mem_cons.mp h with h | h
        · subst h
          exact hs
        · exact (ih _ (by omega)).2 s' h
  intro fuel
  exact haux fuel (initState n) (by simpa [initState] using hn)

theorem all_rejected_no_termination_witness :
    run 1 oracleAllFail 3 (initState 1) = none ∧
      ∀ s' ∈ runTrace 1 oracleAllFail 3 (initState 1), 0 < s'.remaining :=
  all_rejected_no_termination 1 oracleAllFail 1 (by decide)
    (fun i k c hc => by
      have : c.snr = 0 := by
        simp only [oracleAllFail, List.mem_map, List.mem_range] at hc
        obtain ⟨m, _, hm⟩ := hc
        rw [← hm]
      omega)
    3

/-- The Python exceptions relevant to the background-file selection
(lines 132-137). -/
inductive PyExc
  | stopIteration
  | indexError
  | valueError (msg : String)
deriving Repr, DecidableEq

/-- Python list subscripting: `xs[i]` for a non-negative index returns the
element, or raises `IndexError` when the index is out of range. -/
def pyListIndex (xs : List String) (i : Nat) : Except PyExc String :=
  match xs.get? i with
  | some x => Except.ok x
  | none => Except.error PyExc.indexError

/-- `sorted(background_dir.iterdir())`: `sorted` fully consumes the iterator
(handling its internal `StopIteration` itself) and returns a sorted list. -/
def sortedFiles (files : List String) : List String :=
  files.insertionSort (· ≤ ·)

/-- Lines 132-137: `background_path = sorted(background_dir.iterdir())[0]`
inside a `try` whose only handler catches `StopIteration` and re-raises it
as `ValueError("No files in background data directory ...")`; any other
exception propagates unchanged. -/
def resolveBackgroundPath (files : List String) (dirName : String) :
    Except PyExc String :=
  match pyListIndex (sortedFiles files) 0 with
  | Except.ok p => Except.ok p
  | Except.error PyExc.stopIteration =>
      Except.error
        (PyExc.valueError ("No files in background data directory " ++ dirName))
  | Except.error e => Except.error e

/-- C9: on an empty background directory the subscript raises `IndexError`
(not `StopIteration`), so the `except StopIteration` handler is dead code:
no input whatsoever makes `resolveBackgroundPath` produce the `ValueError`,
and the empty directory propagates the bare `IndexError`. -/
theorem empty_dir_raises_index_error (dirName : String) :
    resolveBackgroundPath [] dirName = Except.error PyExc.indexError ∧
      ∀ files msg, resolveBackgroundPath files dirName ≠
        Except.error (PyExc.valueError msg) := by
  constructor
  · rfl
  · intro files msg h
    unfold resolveBackgroundPath at h
    cases hg : pyListIndex (sortedFiles files) 0 with
    | ok x =>
      rw [hg] at h
      cases h
    | error e =>
      have he : e = PyExc.indexError := by
        unfold pyListIndex at hg
        cases hg2 : (sortedFiles files).get? 0 with
        | some x => rw [hg2] at hg; cases hg
        | none => rw [hg2] at hg; cases hg; rfl
      subst he
      rw [hg] at h
      cases h

theorem empty_dir_raises_index_error_witness :
    resolveBackgroundPath [] "background" = Except.error PyExc.indexError ∧
      ∀ files msg, resolveBackgroundPath files "background" ≠
        Except.error (PyExc.valueError msg) :=
  empty_dir_raises_index_error "background"

/-- `main` at the granularity of its failure path (lines 106-239): the
background path is resolved before the accumulation loop runs or anything is
written; on success the loop runs (`none` = still running at the fuel bound)
and the two output file names are produced.  An exception propagates with no
loop state and no output files. -/
def mainModel (files : List String) (dirName : String) (t : Int)
    (oracle : Nat → Nat → List Sample) (n fuel : Nat) :
    Except PyExc (Option (LoopState × List String)) :=
  match resolveBackgroundPath files dirName with
  | Except.error e => Except.error e
  | Except.ok _ =>
    match run t oracle fuel (initState n) with
    | none => Except.ok none
    | some s' =>
      Except.ok (some (s', ["waveforms.h5", "rejected-parameters.h5"]))

/-- C8: with an empty background directory, `main` raises before the loop —
the model returns a bare exception, for every prior oracle, schedule length
and fuel bound: no loop state is ever produced (no sampling, no iteration)
and no output file name is returned (nothing written). -/
theorem empty_background_dir_fatal (dirName : String) (t : Int)
    (oracle : Nat → Nat → List Sample) (n fuel : Nat) :
    mainModel [] dirName t oracle n fuel = Except.error PyExc.indexError := by
  rfl

/-- Keys present in the `parameters` defaultdict right before the loop
(lines 121-128), in insertion order: the schedule times, the shift vectors,
then one strain key per interferometer (lowercased prefix).  A defaultdict
only holds the keys explicitly assigned or accessed so far; the physical
parameter fields are not among them until an accepting iteration writes them
(lines 209-210). -/
def initParameterKeys (ifoKeys : List String) : List String :=
  "gps_time" :: "shift" :: ifoKeys

/-- Line 168, the single-sample workaround: the dict comprehension rebuilds
`params` from the keys of `parameters`, keeping a key only when it also
occurs in the freshly drawn `params`.  This function returns the keys of the
rebuilt dict. -/
def restrictSingleSample (parameterKeys paramKeys : List String) : List String :=
  parameterKeys.filter fun k => paramKeys.contains k

/-- C4 (code bug): on a *first* iteration whose batch size is 1 (an injection
schedule of length 1), the restriction at line 168 keeps only keys already in
the output dict — none of the physical parameter fields drawn by the prior
(e.g. `dec`, `psi`, `ra`, which lines 177-179 read right afterwards)
survive: the restricted field set is empty, not the declared schema, and the
subsequent `params["dec"]` lookup can only fail. -/
theorem first_iteration_single_sample_drops_schema :
    restrictSingleSample (initParameterKeys ["h1", "l1"]) ["dec", "psi", "ra"]
        = [] ∧
      "dec" ∉ restrictSingleSample (initParameterKeys ["h1", "l1"])
        ["dec", "psi", "ra"] ∧
      restrictSingleSample (initParameterKeys ["h1", "l1"]) ["dec", "psi", "ra"]
        ≠ ["dec", "psi", "ra"] := by
  refine ⟨rfl, ?_, ?_⟩
  · intro h
    simp [restrictSingleSample, initParameterKeys] at h
  · intro h
    simp [restrictSingleSample, initParameterKeys] at h

/-- A column of the `parameters` mapping under its per-key view, used for the
writes at lines 209-216; `V` abstracts a row's contents for one key (a scalar
for ordinary fields, a vector for `shift` and the strain keys). -/
def sliceAssign {V : Type} : List V → Nat → List V → List V
  | [], _, _ => []
  | x :: rest, 0, [] => x :: rest
  | _ :: rest, 0, v :: vs => v :: sliceAssign rest 0 vs
  | x :: rest, Nat.succ s, vs => x :: sliceAssign rest s vs

/-- Lines 209-216 of one accepting iteration: each `(key, column)` pair in
`writes` (every entry of `params.items()`, `snr` included, then one entry
per interferometer strain key) is slice-assigned into the mapping at the
current offset, left to right. -/
def applyFieldWrites {V : Type} (fields : String → List V)
    (writes : List (String × List V)) (start : Nat) : String → List V :=
  writes.foldl
    (fun f kv => fun k => if k = kv.1 then sliceAssign (f k) start kv.2 else f k)
    fields

/-- The whole loop's effect on the `parameters` mapping: one
`(writes, offset)` pair per accepting iteration, applied in order. -/
def runFieldWrites {V : Type} (fields : String → List V)
    (its : List (List (String × List V) × Nat)) : String → List V :=
  its.foldl (fun f p => applyFieldWrites f p.1 p.2) fields

/-- Lines 121-128: the initial `parameters` mapping: `gps_time` holds the
injection schedule, `shift` holds the configured shift vector replicated once
per row, each interferometer key holds a zero strain row per sample, and any
other key defaults to a zero scalar per sample. -/
def initFields {V : Type} (n : Nat) (schedule : List V) (shiftRow : V)
    (ifoKeys : List String) (zeroStrain zeroScalar : V) : String → List V :=
  fun k =>
    if k = "gps_time" then schedule
    else if k = "shift" then List.replicate n shiftRow
    else if ifoKeys.contains k then List.replicate n zeroStrain
    else List.replicate n zeroScalar

theorem applyFieldWrites_of_not_written {V : Type}
    (ws : List (String × List V)) (start : Nat) (k : String)
    (h : ∀ kv ∈ ws, kv.1 ≠ k) (f : String → List V) :
    applyFieldWrites f ws start k = f k := by
  induction ws generalizing f with
  | nil => rfl
  | cons kv rest ih =>
    have hk : ¬k = kv.1 := fun he => h kv (List.mem_cons_self kv rest) he.symm
    unfold applyFieldWrites
    rw [List.foldl_cons]
    have := ih (fun kv2 h2 => h kv2 (List.mem_cons_of_mem _ h2))
      (fun k2 => if k2 = kv.1 then sliceAssign (f k2) start kv.2 else f k2)
    rw [applyFieldWrites] at this
    rw [this]
    simp [hk]

theorem runFieldWrites_of_not_written {V : Type}
    (its : List (List (String × List V) × Nat)) (k : String)
    (h : ∀ p ∈ its, ∀ kv ∈ p.1, kv.1 ≠ k) (f : String → List V) :
    runFieldWrites f its k = f k := by
  induction its generalizing f with
  | nil => rfl
  | cons p rest ih =>
    unfold runFieldWrites
    rw [List.foldl_cons]
    have hrest := ih (fun p2 h2 => h p2 (List.mem_cons_of_mem _ h2))
      (applyFieldWrites f p.1 p.2)
    rw [runFieldWrites] at hrest
    rw [hrest]
    exact applyFieldWrites_of_not_written p.1 p.2 k
      (h p (List.mem_cons_self p rest)) f

/-- C10: if no iteration ever writes the keys `gps_time` or `shift` (the
prior never draws them, `snr` is a different key, and the interferometer
strain keys are detector names distinct from both), then after the loop the
`gps_time` column is exactly the injection schedule set before the loop and
the `shift` column is exactly the configured shift vector replicated once per
row: accepted candidates are bound to schedule times purely by row
position. -/
theorem gps_time_shift_untouched {V : Type} (n : Nat) (schedule : List V)
    (shiftRow : V) (ifoKeys : List String) (zeroStrain zeroScalar : V)
    (its : List (List (String × List V) × Nat))
    (h : ∀ p ∈ its, ∀ kv ∈ p.1, kv.1 ≠ "gps_time" ∧ kv.1 ≠ "shift") :
    runFieldWrites (initFields n schedule shiftRow ifoKeys zeroStrain zeroScalar)
        its "gps_time" = schedule ∧
      runFieldWrites (initFields n schedule shiftRow ifoKeys zeroStrain zeroScalar)
        its "shift" = List.replicate n shiftRow := by
  constructor
  · rw [runFieldWrites_of_not_written its "gps_time"
      (fun p hp kv hkv => (h p hp kv hkv).1)]
    rfl
  · rw [runFieldWrites_of_not_written its "shift"
      (fun p hp kv hkv => (h p hp kv hkv).2)]
    rfl

theorem gps_time_shift_untouched_witness :
    runFieldWrites
        (initFields 2 [(100 : Int), 200] 7 ["h1"] 0 0)
        [([("dec", [1, 2]), ("snr", [3, 4]), ("h1", [5, 6])], 0)] "gps_time"
        = [(100 : Int), 200] ∧
      runFieldWrites
        (initFields 2 [(100 : Int), 200] 7 ["h1"] 0 0)
        [([("dec", [1, 2]), ("snr", [3, 4]), ("h1", [5, 6])], 0)] "shift"
        = List.replicate 2 (7 : Int) :=
  gps_time_shift_untouched 2 [(100 : Int), 200] 7 ["h1"] 0 0
    [([("dec", [1, 2]), ("snr", [3, 4]), ("h1", [5, 6])], 0)]
    (by decide)
